import Mathlib

/-!
Shallow embedding of the core game logic of the pixijs match-3 repository
(src/game/Board.ts, src/game/Gem.ts, src/game/constants.ts), together with
theorems settling the specification claims about swaps, match scanning,
special-gem promotion, detonation and the resolution pipeline.

Rendering, animation timing, audio and event emission are presentation-side
effects with no influence on the grid/score/move state; the embedding models
the state transitions the source performs on `this.gems`, `this.score` and
`this.moves`.  `Math.random()` gem creation is modelled by an explicit color
supply `Nat → GemColor` together with a running index, and each `new Gem`
allocation receives a fresh `id` standing for JavaScript object identity.
-/

set_option maxRecDepth 4000000

namespace Match3

/-- Grid position (`Position` interface in constants.ts). -/
structure Position where
  row : Nat
  col : Nat
deriving DecidableEq, Repr

/-- Gem colors (`GemColor` enum in constants.ts). -/
inductive GemColor where
  | yellow
  | blue
  | red
  | green
  | purple
deriving DecidableEq, Repr

/-- Special gem types (`SpecialType` enum in constants.ts). -/
inductive SpecialType where
  | normal
  | striped_h
  | striped_v
  | wrapped
  | color_bomb
deriving DecidableEq, Repr

/-- Obstacle types (`ObstacleType` enum in constants.ts). -/
inductive ObstacleType where
  | none
  | melting_block
  | cookie
  | bomb
deriving DecidableEq, Repr

/-- One gem (class `Gem` in Gem.ts).  `id` models JavaScript object identity
(each `new Gem(...)` yields a fresh id); the remaining fields are the logical
fields of the class (`sprite` and selection/animation flags are visual-only). -/
structure Gem where
  id : Nat
  color : GemColor
  specialType : SpecialType
  obstacleType : ObstacleType
  position : Position
  obstacleState : Nat
deriving DecidableEq, Repr

/-- BOARD_CONFIG.ROWS. -/
def ROWS : Nat := 8
/-- BOARD_CONFIG.COLUMNS. -/
def COLUMNS : Nat := 8
/-- BOARD_CONFIG.MIN_MATCH_LENGTH. -/
def MIN_MATCH_LENGTH : Nat := 3
/-- GAME_CONFIG.INITIAL_MOVES. -/
def INITIAL_MOVES : Int := 30
/-- SCORE_CONFIG.MATCH_3. -/
def MATCH_3 : Nat := 100
/-- SCORE_CONFIG.MATCH_4. -/
def MATCH_4 : Nat := 300
/-- SCORE_CONFIG.MATCH_5. -/
def MATCH_5 : Nat := 500

/-- A match group (`Match` interface in constants.ts; the optional
`specialType` field is never set by Board.ts and is omitted). -/
structure Match where
  positions : List Position
  color : GemColor
deriving DecidableEq, Repr

/-- The board `this.gems : (Gem | null)[][]`, as a cell map.  All reads and
writes performed by Board.ts are within the 8×8 bounds, so a total map is an
exact model of the 2D array. -/
def Grid : Type := Position → Option Gem

/-- Write one cell (`this.gems[p.row][p.col] = v`). -/
def setCell (g : Grid) (p : Position) (v : Option Gem) : Grid :=
  fun q => if q = p then v else g q

/-- Gem.canMatchWith: color bombs match anything, otherwise match by color.
Note the method never inspects `obstacleType`. -/
def canMatchWith (g other : Gem) : Bool :=
  if g.specialType = SpecialType.color_bomb ∨ other.specialType = SpecialType.color_bomb then
    true
  else
    g.color = other.color

/-- The `{ color } as Gem` probe object Board.ts passes to `canMatchWith`
inside the run scanners: its `specialType` is `undefined` in JavaScript and
therefore not `COLOR_BOMB`; modelled as a plain normal gem of that color. -/
def probeGem (c : GemColor) : Gem :=
  ⟨0, c, SpecialType.normal, ObstacleType.none, ⟨0, 0⟩, 0⟩

/-- Gem.isAdjacentTo: same row or column at distance exactly 1. -/
def isAdjacentTo (a b : Gem) : Bool :=
  let rowDiff := ((a.position.row : Int) - (b.position.row : Int)).natAbs
  let colDiff := ((a.position.col : Int) - (b.position.col : Int)).natAbs
  (rowDiff = 1 ∧ colDiff = 0) ∨ (rowDiff = 0 ∧ colDiff = 1)

/-- Gem.isObstacle. -/
def isObstacle (g : Gem) : Bool :=
  g.obstacleType ≠ ObstacleType.none

/-- Gem.canMove: obstacles cannot move.  (Defined in Gem.ts; Board.ts never
calls it.) -/
def canMove (g : Gem) : Bool :=
  ¬ isObstacle g

/-- Gem.isStriped. -/
def isStriped (g : Gem) : Bool :=
  g.specialType = SpecialType.striped_h ∨ g.specialType = SpecialType.striped_v

/-- Gem.isColorBomb. -/
def isColorBomb (g : Gem) : Bool :=
  g.specialType = SpecialType.color_bomb

/-- Gem.damageObstacle: an intact obstacle becomes damaged. -/
def damageObstacle (g : Gem) : Gem :=
  if isObstacle g ∧ g.obstacleState = 0 then { g with obstacleState := 1 } else g

/-- Does the cell at `(r, c)` hold a gem that `canMatchWith` the color probe?
This is the loop condition `gem && gem.canMatchWith({ color } as Gem)` of the
run scanners in Board.ts. -/
def cellMatchesColor (g : Grid) (r c : Nat) (color : GemColor) : Bool :=
  match g ⟨r, c⟩ with
  | some gem => canMatchWith gem (probeGem color)
  | none => false

/-- Leftward half of findHorizontalMatch: `for (let c = col; c >= 0; c--)`,
pushing `{row, c}` while the cell matches, breaking at the first mismatch. -/
def scanLeft (g : Grid) (row : Nat) (color : GemColor) : Nat → List Position
  | 0 => if cellMatchesColor g row 0 color then [⟨row, 0⟩] else []
  | c + 1 =>
    if cellMatchesColor g row (c + 1) color then
      ⟨row, c + 1⟩ :: scanLeft g row color c
    else []

/-- Rightward half of findHorizontalMatch:
`for (let c = col + 1; c < COLUMNS; c++)` with break on mismatch.  The first
argument is fuel bounding the remaining iterations (`COLUMNS` suffices). -/
def scanRight (g : Grid) (row : Nat) (color : GemColor) : Nat → Nat → List Position
  | 0, _ => []
  | fuel + 1, c =>
    if c < COLUMNS then
      if cellMatchesColor g row c color then
        ⟨row, c⟩ :: scanRight g row color fuel (c + 1)
      else []
    else []

/-- Board.findHorizontalMatch. -/
def findHorizontalMatch (g : Grid) (row col : Nat) (color : GemColor) : List Position :=
  scanLeft g row color col ++ scanRight g row color COLUMNS (col + 1)

/-- Upward half of findVerticalMatch: `for (let r = row; r >= 0; r--)`. -/
def scanUp (g : Grid) (col : Nat) (color : GemColor) : Nat → List Position
  | 0 => if cellMatchesColor g 0 col color then [⟨0, col⟩] else []
  | r + 1 =>
    if cellMatchesColor g (r + 1) col color then
      ⟨r + 1, col⟩ :: scanUp g col color r
    else []

/-- Downward half of findVerticalMatch:
`for (let r = row + 1; r < ROWS; r++)` with break on mismatch. -/
def scanDown (g : Grid) (col : Nat) (color : GemColor) : Nat → Nat → List Position
  | 0, _ => []
  | fuel + 1, r =>
    if r < ROWS then
      if cellMatchesColor g r col color then
        ⟨r, col⟩ :: scanDown g col color fuel (r + 1)
      else []
    else []

/-- Board.findVerticalMatch. -/
def findVerticalMatch (g : Grid) (row col : Nat) (color : GemColor) : List Position :=
  scanUp g col color row ++ scanDown g col color ROWS (row + 1)

/-- The claiming loop of findMatchFromPosition:
`run.forEach(pos => { if (!visited.has(pos)) { match.push(pos); visited.add(pos) } })`.
Returns the extended match list and the extended visited set. -/
def addFresh : List Position → List Position → List Position → List Position × List Position
  | [], mtch, vis => (mtch, vis)
  | p :: rest, mtch, vis =>
    if p ∈ vis then addFresh rest mtch vis
    else addFresh rest (mtch ++ [p]) (vis ++ [p])

/-- Board.findMatchFromPosition: claim the unvisited cells of the qualifying
horizontal run, then of the qualifying vertical run; return a match if at
least MIN_MATCH_LENGTH cells were claimed.  The visited set is mutated (and
returned) even when no match is returned. -/
def findMatchFromPosition (g : Grid) (startRow startCol : Nat) (visited : List Position) :
    Option Match × List Position :=
  match g ⟨startRow, startCol⟩ with
  | none => (none, visited)
  | some gem =>
    let h := findHorizontalMatch g startRow startCol gem.color
    let s1 := if MIN_MATCH_LENGTH ≤ h.length then addFresh h [] visited else ([], visited)
    let v := findVerticalMatch g startRow startCol gem.color
    let s2 := if MIN_MATCH_LENGTH ≤ v.length then addFresh v s1.1 s1.2 else s1
    if MIN_MATCH_LENGTH ≤ s2.1.length then (some ⟨s2.1, gem.color⟩, s2.2) else (none, s2.2)

/-- All board cells in row-major order (the nested row/col loops of
findMatchesInBoard, refillBoard and processColorBomb). -/
def allPositions : List Position :=
  (List.range ROWS).foldr
    (fun r acc => ((List.range COLUMNS).map fun c => Position.mk r c) ++ acc) []

/-- Loop body of findMatchesInBoard for one cell: seed a match search when the
cell is occupied and unclaimed, keep the match when it has at least
MIN_MATCH_LENGTH positions. -/
def scanStep (g : Grid) (acc : List Match × List Position) (p : Position) :
    List Match × List Position :=
  match g p with
  | none => acc
  | some _ =>
    if p ∈ acc.2 then acc
    else
      match findMatchFromPosition g p.row p.col acc.2 with
      | (some m, v) =>
        if MIN_MATCH_LENGTH ≤ m.positions.length then (acc.1 ++ [m], v) else (acc.1, v)
      | (none, v) => (acc.1, v)

/-- Board.findMatchesInBoard. -/
def findMatchesInBoard (g : Grid) : List Match :=
  (allPositions.foldl (scanStep g) ([], [])).1

/-- Board.determineStripedDirection: horizontal when the first and last
positions of the match share a row, vertical otherwise. -/
def determineStripedDirection (m : Match) : SpecialType :=
  let firstPos := m.positions.getD 0 ⟨0, 0⟩
  let lastPos := m.positions.getD (m.positions.length - 1) ⟨0, 0⟩
  if firstPos.row = lastPos.row then SpecialType.striped_h else SpecialType.striped_v

/-- Per-match body of the straight-run promotion loop in
Board.createSpecialGems: a 4-position match yields a striped gem and a
5-or-more-position match yields a color bomb, both at the middle-index
position `positions[Math.floor(length / 2)]`; a shorter match yields
nothing.  Newly constructed gems are modelled with id 0. -/
def promoteStraight (m : Match) : Option Gem :=
  if m.positions.length = 4 then
    let centerPos := m.positions.getD (m.positions.length / 2) ⟨0, 0⟩
    some ⟨0, m.color, determineStripedDirection m, ObstacleType.none, centerPos, 0⟩
  else if 5 ≤ m.positions.length then
    let centerPos := m.positions.getD (m.positions.length / 2) ⟨0, 0⟩
    some ⟨0, m.color, SpecialType.color_bomb, ObstacleType.none, centerPos, 0⟩
  else
    none

/-- Board.findMatchIntersection: the first position of `m1` that also occurs
in `m2` (comparing row and col), if any. -/
def findMatchIntersection (m1 m2 : Match) : Option Position :=
  m1.positions.find? fun p1 =>
    m2.positions.any fun p2 => p1.row = p2.row ∧ p1.col = p2.col

/-- Key-insertion step of the `Map<GemColor, Match[]>` grouping in
Board.findWrappedPatterns: a color is appended the first time it is seen. -/
def insertColor (cs : List GemColor) (c : GemColor) : List GemColor :=
  if c ∈ cs then cs else cs ++ [c]

/-- The key set of the color grouping map, in insertion order. -/
def matchColors (ms : List Match) : List GemColor :=
  ms.foldl (fun cs m => insertColor cs m.color) []

/-- The double loop `for i ... for j = i+1 ...` of Board.findWrappedPatterns
over one color group: each pair with a non-null intersection contributes one
wrapped gem of the group color at the intersection position. -/
def wrappedPairsFrom (color : GemColor) : List Match → List Gem
  | [] => []
  | m :: rest =>
    (rest.filterMap fun m2 =>
      (findMatchIntersection m m2).map fun pos =>
        (⟨0, color, SpecialType.wrapped, ObstacleType.none, pos, 0⟩ : Gem))
    ++ wrappedPairsFrom color rest

/-- Board.findWrappedPatterns: group the matches by color (map insertion
order), then scan every ordered pair inside each group of size at least 2. -/
def findWrappedPatterns (ms : List Match) : List Gem :=
  (matchColors ms).foldl
    (fun acc color =>
      let colorMatches := ms.filter fun m => m.color = color
      if 2 ≤ colorMatches.length then acc ++ wrappedPairsFrom color colorMatches
      else acc)
    []

/-- Board.createSpecialGems: straight-run promotions in match order, followed
by the wrapped gems from L/T intersections. -/
def createSpecialGems (ms : List Match) : List Gem :=
  let specialGems := ms.foldl
    (fun acc m =>
      match promoteStraight m with
      | some sg => acc ++ [sg]
      | none => acc)
    []
  specialGems ++ findWrappedPatterns ms

/-- Board.calculateMatchScore: flat score bands by match length. -/
def calculateMatchScore (m : Match) : Nat :=
  let length := m.positions.length
  if length = 3 then MATCH_3
  else if length = 4 then MATCH_4
  else if 5 ≤ length then MATCH_5
  else 0

/-- Clear one cell if it holds a gem (the body of removeMatchedGems and of
removeGemsAtPositions: `if (gem) { ...; this.gems[pos] = null }`). -/
def removeGemAt (g : Grid) (pos : Position) : Grid :=
  match g pos with
  | some _ => setCell g pos none
  | none => g

/-- Board.removeMatchedGems: null out every matched position. -/
def removeMatchedGems (g : Grid) (ms : List Match) : Grid :=
  ms.foldl (fun g m => m.positions.foldl removeGemAt g) g

/-- Board.removeGemsAtPositions. -/
def removeGemsAtPositions (g : Grid) (ps : List Position) : Grid :=
  ps.foldl removeGemAt g

/-- Per-position body of Board.damageAdjacentObstacles: damage any obstacle
in the four orthogonal neighbor cells that lie inside the board. -/
def damageStep (g : Grid) (pos : Position) : Grid :=
  let dirs : List (Int × Int) :=
    [((pos.row : Int) - 1, (pos.col : Int)), ((pos.row : Int) + 1, (pos.col : Int)),
     ((pos.row : Int), (pos.col : Int) - 1), ((pos.row : Int), (pos.col : Int) + 1)]
  dirs.foldl
    (fun (g : Grid) (rc : Int × Int) =>
      if 0 ≤ rc.1 ∧ rc.1 < Int.ofNat ROWS ∧ 0 ≤ rc.2 ∧ rc.2 < Int.ofNat COLUMNS then
        let adj : Position := ⟨rc.1.toNat, rc.2.toNat⟩
        match g adj with
        | some gem => if isObstacle gem then setCell g adj (some (damageObstacle gem)) else g
        | none => g
      else g)
    g

/-- Board.damageAdjacentObstacles over all matched positions. -/
def damageAdjacentObstacles (g : Grid) (ms : List Match) : Grid :=
  ms.foldl (fun g m => m.positions.foldl damageStep g) g

/-- Board.processStripedGem: clear the gem's whole row (striped-horizontal)
or whole column (otherwise). -/
def processStripedGem (g : Grid) (gem : Gem) : Grid :=
  let positions :=
    if gem.specialType = SpecialType.striped_h then
      (List.range COLUMNS).map fun col => Position.mk gem.position.row col
    else
      (List.range ROWS).map fun row => Position.mk row gem.position.col
  removeGemsAtPositions g positions

/-- Board.processColorBomb: clear every board cell currently holding a gem of
the bomb's color (row-major collection, then removal). -/
def processColorBomb (g : Grid) (gem : Gem) : Grid :=
  let positions := allPositions.filter fun p =>
    match g p with
    | some boardGem => boardGem.color = gem.color
    | none => false
  removeGemsAtPositions g positions

/-- Board.processSpecialGems: detonate each promoted gem in order; wrapped
gems have no detonation branch. -/
def processSpecialGems (g : Grid) (specialGems : List Gem) : Grid :=
  specialGems.foldl
    (fun g sg =>
      if isStriped sg then processStripedGem g sg
      else if isColorBomb sg then processColorBomb g sg
      else g)
    g

/-- One column of Board.dropGems: walk the rows bottom-up with a write index,
moving each gem down to the write index (updating its logical position, as
animateGemDrop's completion does) and leaving the vacated cell empty. -/
def dropColumn (g : Grid) (col : Nat) : Grid :=
  ((List.range ROWS).reverse.foldl
    (fun (acc : Grid × Nat) row =>
      match acc.1 ⟨row, col⟩ with
      | some gem =>
        if row ≠ acc.2 then
          let g1 := setCell acc.1 ⟨acc.2, col⟩ (some { gem with position := ⟨acc.2, col⟩ })
          (setCell g1 ⟨row, col⟩ none, acc.2 - 1)
        else (acc.1, acc.2 - 1)
      | none => acc)
    (g, ROWS - 1)).1

/-- Board.dropGems: compact every column downward. -/
def dropGems (g : Grid) : Grid :=
  (List.range COLUMNS).foldl dropColumn g

/-- Board.createRandomGem: a fresh normal gem of the next supplied color at
the given position, returning the advanced supply index.  The fresh `id` is
the supply index, modelling a new object allocation. -/
def createRandomGem (supply : Nat → GemColor) (idx : Nat) (pos : Position) : Gem × Nat :=
  (⟨idx, supply idx, SpecialType.normal, ObstacleType.none, pos, 0⟩, idx + 1)

/-- Board.refillBoard: column-major traversal creating a fresh random gem in
every empty cell. -/
def refillBoard (supply : Nat → GemColor) (g : Grid) (idx : Nat) : Grid × Nat :=
  (List.range COLUMNS).foldl
    (fun acc col =>
      (List.range ROWS).foldl
        (fun (acc2 : Grid × Nat) row =>
          match acc2.1 ⟨row, col⟩ with
          | none =>
            let gi := createRandomGem supply acc2.2 ⟨row, col⟩
            (setCell acc2.1 ⟨row, col⟩ (some gi.1), gi.2)
          | some _ => acc2)
        acc)
    (g, idx)

/-- Re-roll loop body of Board.removeInitialMatches: every position of every
found match receives a fresh random gem. -/
def rerollMatches (supply : Nat → GemColor) (g : Grid) (idx : Nat) (ms : List Match) :
    Grid × Nat :=
  ms.foldl
    (fun (acc : Grid × Nat) m =>
      m.positions.foldl
        (fun (acc2 : Grid × Nat) pos =>
          let gi := createRandomGem supply acc2.2 pos
          (setCell acc2.1 pos (some gi.1), gi.2))
        acc)
    (g, idx)

/-- Board.removeInitialMatches: re-roll matched cells until a scan finds no
match.  The `while` loop is modelled with explicit fuel; `none` means the
loop was still running when the fuel ran out. -/
def removeInitialMatches (supply : Nat → GemColor) :
    Nat → Grid → Nat → Option (Grid × Nat)
  | 0, _, _ => none
  | fuel + 1, g, idx =>
    let ms := findMatchesInBoard g
    if ms.isEmpty then some (g, idx)
    else
      let gi := rerollMatches supply g idx ms
      removeInitialMatches supply fuel gi.1 gi.2

/-- The logical game-session state owned by Board: the gem grid, `this.score`,
`this.moves` and the modelled random-supply index. -/
structure BoardState where
  gems : Grid
  score : Nat
  moves : Int
  supplyIdx : Nat

/-- Board.processMatches: score, promote specials, remove matched gems,
damage adjacent obstacles, detonate the promoted specials, apply gravity,
refill, then rescan and recurse while matches remain.  The recursion is
modelled with explicit fuel; `none` means the cascade outlived the fuel. -/
def processMatches (supply : Nat → GemColor) :
    Nat → BoardState → List Match → Option BoardState
  | 0, _, _ => none
  | fuel + 1, st, ms =>
    let totalScore := ms.foldl (fun acc m => acc + calculateMatchScore m) 0
    let specialGems := createSpecialGems ms
    let g1 := removeMatchedGems st.gems ms
    let g2 := damageAdjacentObstacles g1 ms
    let g3 := processSpecialGems g2 specialGems
    let g4 := dropGems g3
    let gi := refillBoard supply g4 st.supplyIdx
    let st' : BoardState := ⟨gi.1, st.score + totalScore, st.moves, gi.2⟩
    let newMatches := findMatchesInBoard gi.1
    if 0 < newMatches.length then processMatches supply fuel st' newMatches
    else some st'

/-- Board.swapGems: read both logical positions, update each gem's position
(animateGemToPosition's completion calls setPosition), then swap the two
array cells.  Returns the updated grid and the two updated gem objects. -/
def swapGems (g : Grid) (gem1 gem2 : Gem) : Grid × Gem × Gem :=
  let pos1 := gem1.position
  let pos2 := gem2.position
  let gem1' := { gem1 with position := pos2 }
  let gem2' := { gem2 with position := pos1 }
  let g1 := setCell g pos1 (some gem2')
  let g2 := setCell g1 pos2 (some gem1')
  (g2, gem1', gem2')

/-- Board.attemptSwap: provisionally swap, scan; on a match process the
cascade and decrement `this.moves`, otherwise swap back.  Selection clearing,
audio and events have no grid/score/move effect and are omitted; the
`isProcessing` lock is handled by the caller model. -/
def attemptSwap (supply : Nat → GemColor) (fuel : Nat) (st : BoardState) (gem1 gem2 : Gem) :
    Option BoardState :=
  let sw := swapGems st.gems gem1 gem2
  let ms := findMatchesInBoard sw.1
  if 0 < ms.length then
    (processMatches supply fuel { st with gems := sw.1 } ms).map fun st' =>
      { st' with moves := st'.moves - 1 }
  else
    let back := swapGems sw.1 sw.2.1 sw.2.2
    some { st with gems := back.1 }

/-- Input-handling state around the board: the current selection and the
`isProcessing` lock, as used by Board.onGemClicked. -/
structure UIState where
  board : BoardState
  selectedGem : Option Gem
  isProcessing : Bool

/-- Board.onGemClicked: ignore clicks while processing; otherwise select,
deselect, attempt a swap with an adjacent selected gem (which clears the
selection), or move the selection.  `none` propagates attemptSwap fuel
exhaustion. -/
def onGemClicked (supply : Nat → GemColor) (fuel : Nat) (ui : UIState) (gem : Gem) :
    Option UIState :=
  if ui.isProcessing then some ui
  else
    match ui.selectedGem with
    | none => some { ui with selectedGem := some gem }
    | some sel =>
      if sel = gem then some { ui with selectedGem := none }
      else if isAdjacentTo sel gem then
        (attemptSwap supply fuel ui.board sel gem).map fun b =>
          { ui with board := b, selectedGem := none }
      else some { ui with selectedGem := some gem }

/-- A deterministic color cycle standing for one run of `Math.random()`
draws. -/
def paletteColor (n : Nat) : GemColor :=
  match n % 5 with
  | 0 => GemColor.yellow
  | 1 => GemColor.blue
  | 2 => GemColor.red
  | 3 => GemColor.green
  | _ => GemColor.purple

/-- The example random supply used by the concrete scenarios. -/
def exSupply : Nat → GemColor := paletteColor

/-- The normal gem placed at `p` in the example base board. -/
def baseGem (p : Position) : Gem :=
  ⟨8 * p.row + p.col, paletteColor (2 * p.row + p.col), SpecialType.normal,
   ObstacleType.none, p, 0⟩

/-- An 8×8 board with no match anywhere: horizontally adjacent colors differ
by 1 (mod 5) and vertically adjacent colors differ by 2 (mod 5), so no two
neighboring cells even share a color. -/
def baseGrid : Grid :=
  fun p => if p.row < ROWS ∧ p.col < COLUMNS then some (baseGem p) else none

/-- Example session state over the base board. -/
def stBase : BoardState := ⟨baseGrid, 0, INITIAL_MOVES, 0⟩

/-- The base gem at (0,0) (yellow), used for the reverted-swap witness. -/
def exGemA : Gem := baseGem ⟨0, 0⟩

/-- The base gem at (0,1) (blue), also the gem clicked in the obstacle swap
scenario. -/
def exGemB : Gem := baseGem ⟨0, 1⟩

/-- A yellow cookie obstacle sitting at (0,0) in the obstacle-swap board. -/
def exGemO : Gem := ⟨100, GemColor.yellow, SpecialType.normal, ObstacleType.cookie, ⟨0, 0⟩, 0⟩

/-- Obstacle-swap board: the cookie at (0,0) and yellow gems at (0,2) and
(0,3); swapping the cookie with the blue gem at (0,1) lines up yellow at
(0,1)–(0,3). -/
def exGridC7 : Grid :=
  fun p =>
    if p = ⟨0, 0⟩ then some exGemO
    else if p = ⟨0, 2⟩ then some ⟨101, GemColor.yellow, SpecialType.normal, ObstacleType.none, ⟨0, 2⟩, 0⟩
    else if p = ⟨0, 3⟩ then some ⟨102, GemColor.yellow, SpecialType.normal, ObstacleType.none, ⟨0, 3⟩, 0⟩
    else baseGrid p

/-- UI state in which the cookie obstacle is the current selection. -/
def exUIC7 : UIState := ⟨⟨exGridC7, 0, INITIAL_MOVES, 0⟩, some exGemO, false⟩

/-- A horizontal 4-match of yellow along row 0, columns 0–3. -/
def exMatch4 : Match := ⟨[⟨0, 0⟩, ⟨0, 1⟩, ⟨0, 2⟩, ⟨0, 3⟩], GemColor.yellow⟩

/-- A board holding the yellow 4-run of `exMatch4` on the base pattern. -/
def exGrid4 : Grid :=
  fun p =>
    if p.row = 0 ∧ p.col < 4 then
      some ⟨110 + p.col, GemColor.yellow, SpecialType.normal, ObstacleType.none, p, 0⟩
    else baseGrid p

/-- The striped gem the promoter creates from `exMatch4`. -/
def exStripedGem : Gem :=
  ⟨0, GemColor.yellow, SpecialType.striped_h, ObstacleType.none, ⟨0, 2⟩, 0⟩

/-- A yellow cookie obstacle at (0,1), in the middle of a yellow run. -/
def exCookie : Gem := ⟨121, GemColor.yellow, SpecialType.normal, ObstacleType.cookie, ⟨0, 1⟩, 0⟩

/-- Board where a yellow run at (0,0)–(0,2) passes through the cookie
obstacle at (0,1): (0,0) is already yellow in the base pattern. -/
def exGrid9 : Grid :=
  fun p =>
    if p = ⟨0, 1⟩ then some exCookie
    else if p = ⟨0, 2⟩ then some ⟨122, GemColor.yellow, SpecialType.normal, ObstacleType.none, ⟨0, 2⟩, 0⟩
    else baseGrid p

/-- The six cells holding yellow gems in the color-bomb scenario board. -/
def yl6 : List Position := [⟨0, 0⟩, ⟨1, 3⟩, ⟨2, 6⟩, ⟨4, 2⟩, ⟨5, 5⟩, ⟨7, 1⟩]

/-- Board containing exactly six yellow gems (at `yl6`); all other cells hold
non-yellow gems on a 4-cycle pattern. -/
def exGrid6 : Grid :=
  fun p =>
    if p.row < ROWS ∧ p.col < COLUMNS then
      if p ∈ yl6 then
        some ⟨300 + 8 * p.row + p.col, GemColor.yellow, SpecialType.normal, ObstacleType.none, p, 0⟩
      else
        some ⟨8 * p.row + p.col,
          match (2 * p.row + p.col) % 4 with
          | 0 => GemColor.blue
          | 1 => GemColor.red
          | 2 => GemColor.green
          | _ => GemColor.purple,
          SpecialType.normal, ObstacleType.none, p, 0⟩
    else none

/-- A yellow color bomb (as `processColorBomb` receives it from the
promoter). -/
def exBomb : Gem := ⟨0, GemColor.yellow, SpecialType.color_bomb, ObstacleType.none, ⟨0, 2⟩, 0⟩

/-- A blue striped-horizontal gem recorded at (3,4). -/
def exStripedRow : Gem := ⟨0, GemColor.blue, SpecialType.striped_h, ObstacleType.none, ⟨3, 4⟩, 0⟩

/-- A red striped-vertical gem recorded at (2,5). -/
def exStripedCol : Gem := ⟨0, GemColor.red, SpecialType.striped_v, ObstacleType.none, ⟨2, 5⟩, 0⟩

/-- Two 3-position matches of the same color sharing exactly the corner
position (2,2): an L-shape. -/
def exMatchL1 : Match := ⟨[⟨2, 0⟩, ⟨2, 1⟩, ⟨2, 2⟩], GemColor.red⟩

/-- The vertical leg of the L-shape, also ending at (2,2). -/
def exMatchL2 : Match := ⟨[⟨0, 2⟩, ⟨1, 2⟩, ⟨2, 2⟩], GemColor.red⟩

/-- A board with every cell empty (transient mid-resolution state). -/
def emptyGrid : Grid := fun _ => none

/-- Session state over the empty board. -/
def stEmpty : BoardState := ⟨emptyGrid, 0, INITIAL_MOVES, 0⟩

/-- Unfolding `processMatches` by one cascade step. -/
theorem processMatches_succ (supply : Nat → GemColor) (fuel : Nat) (st : BoardState)
    (ms : List Match) :
    processMatches supply (fuel + 1) st ms =
      (let totalScore := ms.foldl (fun acc m => acc + calculateMatchScore m) 0
       let specialGems := createSpecialGems ms
       let g1 := removeMatchedGems st.gems ms
       let g2 := damageAdjacentObstacles g1 ms
       let g3 := processSpecialGems g2 specialGems
       let g4 := dropGems g3
       let gi := refillBoard supply g4 st.supplyIdx
       let st' : BoardState := ⟨gi.1, st.score + totalScore, st.moves, gi.2⟩
       let newMatches := findMatchesInBoard gi.1
       if 0 < newMatches.length then processMatches supply fuel st' newMatches
       else some st') := rfl

/-- A completed cascade never touches the move counter: `this.moves` is only
decremented in `attemptSwap`, outside `processMatches`. -/
theorem processMatches_moves (supply : Nat → GemColor) :
    ∀ (fuel : Nat) (st : BoardState) (ms : List Match) (st' : BoardState),
      processMatches supply fuel st ms = some st' → st'.moves = st.moves := by
  intro fuel
  induction fuel with
  | zero => intro st ms st' h; exact absurd h (by simp [processMatches])
  | succ fuel ih =>
    intro st ms st' h
    rw [processMatches_succ] at h
    simp only at h
    split at h
    · have h2 := ih _ _ _ h
      exact h2
    · cases h
      rfl

/-- A terminating cascade ends on a grid that scans to no matches: the
recursion only returns when the rescan after refill is empty. -/
theorem processMatches_rest (supply : Nat → GemColor) :
    ∀ (fuel : Nat) (st : BoardState) (ms : List Match) (st' : BoardState),
      processMatches supply fuel st ms = some st' → findMatchesInBoard st'.gems = [] := by
  intro fuel
  induction fuel with
  | zero => intro st ms st' h; exact absurd h (by simp [processMatches])
  | succ fuel ih =>
    intro st ms st' h
    rw [processMatches_succ] at h
    simp only at h
    split at h
    · exact ih _ _ _ h
    · next hlen =>
      cases h
      simpa using List.length_eq_zero.mp (Nat.eq_zero_of_not_pos hlen)

/-- The initialization re-roll loop only exits when the scan is empty. -/
theorem removeInitialMatches_rest (supply : Nat → GemColor) :
    ∀ (fuel : Nat) (g : Grid) (idx : Nat) (out : Grid × Nat),
      removeInitialMatches supply fuel g idx = some out →
      findMatchesInBoard out.1 = [] := by
  intro fuel
  induction fuel with
  | zero => intro g idx out h; exact absurd h (by simp [removeInitialMatches])
  | succ fuel ih =>
    intro g idx out h
    simp only [removeInitialMatches] at h
    split at h
    · next hempty =>
      cases h
      exact List.isEmpty_iff.mp hempty
    · exact ih _ _ _ h

/-- C2: Every grid produced by board initialization (the fixed-point re-roll
loop of removeInitialMatches) and every grid left when a processMatches
invocation returns (after its last refill-and-rescan) yields an empty list
under findMatchesInBoard. -/
theorem rest_grids_scan_empty :
    (∀ (supply : Nat → GemColor) (fuel : Nat) (g : Grid) (idx : Nat) (out : Grid × Nat),
      removeInitialMatches supply fuel g idx = some out → findMatchesInBoard out.1 = []) ∧
    (∀ (supply : Nat → GemColor) (fuel : Nat) (st : BoardState) (ms : List Match)
      (st' : BoardState),
      processMatches supply fuel st ms = some st' → findMatchesInBoard st'.gems = []) :=
  ⟨fun supply => removeInitialMatches_rest supply,
   fun supply => processMatches_rest supply⟩

/-- Witness for C2: the base board is already match-free, so one re-roll
iteration returns it unchanged, and a cascade step started on it with no
matches returns it unchanged; both returned grids scan empty. -/
theorem rest_grids_scan_empty_witness :
    removeInitialMatches exSupply 1 baseGrid 0 = some (baseGrid, 0) ∧
    findMatchesInBoard baseGrid = [] ∧
    processMatches exSupply 1 stBase [] = some stBase ∧
    findMatchesInBoard stBase.gems = [] := by
  have h1 : removeInitialMatches exSupply 1 baseGrid 0 = some (baseGrid, 0) := rfl
  have h2 : processMatches exSupply 1 stBase [] = some stBase := rfl
  exact ⟨h1, rest_grids_scan_empty.1 exSupply 1 baseGrid 0 (baseGrid, 0) h1,
    h2, rest_grids_scan_empty.2 exSupply 1 stBase [] stBase h2⟩

/-- C1: an adjacent swap whose provisional grid scans to no matches is swapped
back: `attemptSwap` returns the state it started from — the same gem object
in every cell, and score and moves untouched.  The two cell hypotheses state
that each swapped gem really is the board occupant of its own recorded
position, which is how `onGemClicked` obtains them. -/
theorem attemptSwap_no_match_restores_state (supply : Nat → GemColor) (fuel : Nat)
    (st : BoardState) (gem1 gem2 : Gem)
    (h1 : st.gems gem1.position = some gem1)
    (h2 : st.gems gem2.position = some gem2)
    (hadj : isAdjacentTo gem1 gem2 = true)
    (hnm : findMatchesInBoard (swapGems st.gems gem1 gem2).1 = []) :
    attemptSwap supply fuel st gem1 gem2 = some st := by
  have hback :
      (swapGems (swapGems st.gems gem1 gem2).1
        (swapGems st.gems gem1 gem2).2.1 (swapGems st.gems gem1 gem2).2.2).1 = st.gems := by
    funext q
    simp only [swapGems, setCell]
    by_cases hq1 : q = gem1.position
    · subst hq1
      simp [h1.symm]
    · by_cases hq2 : q = gem2.position
      · subst hq2
        simp [hq1, h2.symm]
      · simp [hq1, hq2]
  simp only [attemptSwap, hnm, List.length_nil, Nat.lt_irrefl, if_false]
  rw [hback]

/-- Witness for C1: swapping the two leading base-board gems produces no
match, and `attemptSwap` hands back the untouched state. -/
theorem attemptSwap_no_match_restores_state_witness :
    attemptSwap exSupply 1 stBase exGemA exGemB = some stBase :=
  attemptSwap_no_match_restores_state exSupply 1 stBase exGemA exGemB
    rfl rfl (by decide) (by decide)

/-- C3: the move budget decreases by exactly 1 for an accepted swap (one
whose provisional grid contains a match), independent of cascade depth, and
is unchanged for a swap that produces no match. -/
theorem moves_budget :
    (∀ (supply : Nat → GemColor) (fuel : Nat) (st : BoardState) (ms : List Match)
      (st' : BoardState),
      processMatches supply fuel st ms = some st' → st'.moves = st.moves) ∧
    (∀ (supply : Nat → GemColor) (fuel : Nat) (st : BoardState) (gem1 gem2 : Gem)
      (st' : BoardState),
      0 < (findMatchesInBoard (swapGems st.gems gem1 gem2).1).length →
      attemptSwap supply fuel st gem1 gem2 = some st' → st'.moves = st.moves - 1) ∧
    (∀ (supply : Nat → GemColor) (fuel : Nat) (st : BoardState) (gem1 gem2 : Gem)
      (st' : BoardState),
      (findMatchesInBoard (swapGems st.gems gem1 gem2).1).length = 0 →
      attemptSwap supply fuel st gem1 gem2 = some st' → st'.moves = st.moves) := by
  refine ⟨fun supply => processMatches_moves supply, ?_, ?_⟩
  · intro supply fuel st gem1 gem2 st' hpos h
    simp only [attemptSwap, hpos, if_true] at h
    obtain ⟨p, hp, hmap⟩ := Option.map_eq_some'.mp h
    have hm := processMatches_moves supply fuel _ _ _ hp
    cases hmap
    exact congrArg (fun z => z - 1) hm
  · intro supply fuel st gem1 gem2 st' hz h
    simp only [attemptSwap, hz, Nat.lt_irrefl, if_false] at h
    cases h
    rfl

/-- The straight-run promotion loop of createSpecialGems pushes exactly the
gems `promoteStraight` yields, in match order. -/
theorem foldl_promote_eq_filterMap :
    ∀ (ms : List Match) (acc : List Gem),
      ms.foldl (fun acc m =>
        match promoteStraight m with
        | some sg => acc ++ [sg]
        | none => acc) acc = acc ++ ms.filterMap promoteStraight := by
  intro ms
  induction ms with
  | nil => intro acc; simp
  | cons m rest ih =>
    intro acc
    simp only [List.foldl_cons, List.filterMap_cons]
    cases hm : promoteStraight m with
    | none => simp [ih]
    | some sg => simp [ih, List.append_assoc]

/-- Every gem built by the wrapped-pattern pair loop is a wrapped gem of the
group color located at the first intersection of its pair. -/
theorem wrappedPairsFrom_shape (c : GemColor) :
    ∀ (l : List Match) (g : Gem), g ∈ wrappedPairsFrom c l →
      g.specialType = SpecialType.wrapped ∧ g.color = c := by
  intro l
  induction l with
  | nil => intro g h; simp [wrappedPairsFrom] at h
  | cons m rest ih =>
    intro g h
    simp only [wrappedPairsFrom, List.mem_append] at h
    rcases h with h | h
    · obtain ⟨m2, _, hg⟩ := List.mem_filterMap.mp h
      obtain ⟨p, _, hp⟩ := Option.map_eq_some'.mp hg
      cases hp
      exact ⟨rfl, rfl⟩
    · exact ih g h

/-- Every gem produced by findWrappedPatterns is a wrapped gem. -/
theorem findWrappedPatterns_wrapped (ms : List Match) :
    ∀ g ∈ findWrappedPatterns ms, g.specialType = SpecialType.wrapped := by
  unfold findWrappedPatterns
  suffices h : ∀ (colors : List GemColor) (acc : List Gem),
      (∀ g ∈ acc, g.specialType = SpecialType.wrapped) →
      ∀ g ∈ colors.foldl
        (fun acc color =>
          let colorMatches := ms.filter fun m => m.color = color
          if 2 ≤ colorMatches.length then acc ++ wrappedPairsFrom color colorMatches
          else acc) acc,
        g.specialType = SpecialType.wrapped by
    exact h (matchColors ms) [] (by simp)
  intro colors
  induction colors with
  | nil => intro acc hacc; simpa using hacc
  | cons c rest ih =>
    intro acc hacc g hg
    refine ih _ ?_ g hg
    intro g' hg'
    simp only at hg'
    split at hg'
    · rcases List.mem_append.mp hg' with h | h
      · exact hacc g' h
      · exact (wrappedPairsFrom_shape c _ g' h).1
    · exact hacc g' hg'

/-- C4: straight-run promotion.  The promoter output is one gem per match as
given by `promoteStraight` (followed by the separately produced wrapped gems,
which are never striped or color bombs): a 4-position match yields exactly
one striped gem of the match color at index ⌊length/2⌋ = 2, horizontal when
all positions share a row and vertical when all share a column; a match of 5
or more positions yields exactly one color bomb at index ⌊length/2⌋; a
3-position match yields nothing from run length alone. -/
theorem straight_run_promotion :
    (∀ ms : List Match,
      createSpecialGems ms = ms.filterMap promoteStraight ++ findWrappedPatterns ms) ∧
    (∀ ms : List Match, ∀ g ∈ findWrappedPatterns ms, g.specialType = SpecialType.wrapped) ∧
    (∀ m : Match, m.positions.length = 4 →
      (∀ p ∈ m.positions, ∀ q ∈ m.positions, p.row = q.row) →
      promoteStraight m = some ⟨0, m.color, SpecialType.striped_h, ObstacleType.none,
        m.positions.getD 2 ⟨0, 0⟩, 0⟩) ∧
    (∀ m : Match, m.positions.length = 4 → m.positions.Nodup →
      (∀ p ∈ m.positions, ∀ q ∈ m.positions, p.col = q.col) →
      promoteStraight m = some ⟨0, m.color, SpecialType.striped_v, ObstacleType.none,
        m.positions.getD 2 ⟨0, 0⟩, 0⟩) ∧
    (∀ m : Match, 5 ≤ m.positions.length →
      promoteStraight m = some ⟨0, m.color, SpecialType.color_bomb, ObstacleType.none,
        m.positions.getD (m.positions.length / 2) ⟨0, 0⟩, 0⟩) ∧
    (∀ m : Match, m.positions.length = 3 → promoteStraight m = none) := by
  refine ⟨?_, findWrappedPatterns_wrapped, ?_, ?_, ?_, ?_⟩
  · intro ms
    unfold createSpecialGems
    rw [foldl_promote_eq_filterMap ms []]
    rfl
  · intro m hlen hrow
    obtain ⟨ps, c⟩ := m
    rcases ps with _ | ⟨a, ps⟩
    · simp at hlen
    rcases ps with _ | ⟨b, ps⟩
    · simp at hlen
    rcases ps with _ | ⟨x, ps⟩
    · simp at hlen
    rcases ps with _ | ⟨d, ps⟩
    · simp at hlen
    rcases ps with _ | ⟨e, ps⟩
    · have har : a.row = d.row := hrow a (by simp) d (by simp)
      simp [promoteStraight, determineStripedDirection, har]
    · simp at hlen
  · intro m hlen hnd hcol
    obtain ⟨ps, c⟩ := m
    rcases ps with _ | ⟨a, ps⟩
    · simp at hlen
    rcases ps with _ | ⟨b, ps⟩
    · simp at hlen
    rcases ps with _ | ⟨x, ps⟩
    · simp at hlen
    rcases ps with _ | ⟨d, ps⟩
    · simp at hlen
    rcases ps with _ | ⟨e, ps⟩
    · have hac : a.col = d.col := hcol a (by simp) d (by simp)
      have hne : a ≠ d := by
        intro hEq
        rw [hEq] at hnd
        simp at hnd
      have har : ¬ a.row = d.row := by
        intro hEq
        refine hne ?_
        obtain ⟨ar, ac⟩ := a
        obtain ⟨dr, dc⟩ := d
        simp only at hEq hac
        rw [hEq, hac]
      simp [promoteStraight, determineStripedDirection, har]
    · simp at hlen
  · intro m hlen
    have h4 : ¬ m.positions.length = 4 := by omega
    simp [promoteStraight, h4, hlen]
  · intro m hlen
    simp [promoteStraight, hlen]

/-- Witness for C4: a horizontal yellow 4-run promotes to a horizontal
striped gem at its index-2 position, a vertical 5-run to a color bomb at
index 2, and a 3-run to nothing; the full promoter output for the 4-run is
that single gem. -/
theorem straight_run_promotion_witness :
    createSpecialGems [exMatch4] =
      [exMatch4].filterMap promoteStraight ++ findWrappedPatterns [exMatch4] ∧
    promoteStraight exMatch4 =
      some ⟨0, GemColor.yellow, SpecialType.striped_h, ObstacleType.none, ⟨0, 2⟩, 0⟩ ∧
    promoteStraight ⟨[⟨0, 5⟩, ⟨1, 5⟩, ⟨2, 5⟩, ⟨3, 5⟩], GemColor.blue⟩ =
      some ⟨0, GemColor.blue, SpecialType.striped_v, ObstacleType.none, ⟨2, 5⟩, 0⟩ ∧
    promoteStraight ⟨[⟨0, 4⟩, ⟨1, 4⟩, ⟨2, 4⟩, ⟨3, 4⟩, ⟨4, 4⟩], GemColor.green⟩ =
      some ⟨0, GemColor.green, SpecialType.color_bomb, ObstacleType.none, ⟨2, 4⟩, 0⟩ ∧
    promoteStraight exMatchL1 = none := by
  refine ⟨straight_run_promotion.1 [exMatch4],
    straight_run_promotion.2.2.1 exMatch4 (by decide) (by decide),
    straight_run_promotion.2.2.2.1 ⟨[⟨0, 5⟩, ⟨1, 5⟩, ⟨2, 5⟩, ⟨3, 5⟩], GemColor.blue⟩
      (by decide) (by decide) (by decide),
    straight_run_promotion.2.2.2.2.1 ⟨[⟨0, 4⟩, ⟨1, 4⟩, ⟨2, 4⟩, ⟨3, 4⟩, ⟨4, 4⟩], GemColor.green⟩
      (by decide),
    straight_run_promotion.2.2.2.2.2 exMatchL1 (by decide)⟩

/-- The ordered pairs (i, j) with i < j of a match list: the iteration space
of the double loop in findWrappedPatterns. -/
def allPairs : List Match → List (Match × Match)
  | [] => []
  | m :: rest => (rest.map fun m2 => (m, m2)) ++ allPairs rest

/-- A filterMap keeps exactly the elements on which the function fires. -/
theorem length_filterMap_isSome {α β : Type} (f : α → Option β) :
    ∀ l : List α, (l.filterMap f).length = (l.filter fun x => (f x).isSome).length := by
  intro l
  induction l with
  | nil => rfl
  | cons a t ih =>
    cases hf : f a <;>
      simp [List.filterMap_cons, hf, List.filter_cons, ih]

/-- One wrapped gem is produced per intersecting pair of the color group: the
pair loop output has exactly one entry for every ordered pair whose
findMatchIntersection is non-null. -/
theorem wrappedPairsFrom_length (c : GemColor) :
    ∀ l : List Match, (wrappedPairsFrom c l).length =
      ((allPairs l).filter fun pr => (findMatchIntersection pr.1 pr.2).isSome).length := by
  intro l
  induction l with
  | nil => rfl
  | cons m rest ih =>
    simp only [wrappedPairsFrom, allPairs, List.filter_append, List.length_append, ih]
    congr 1
    rw [List.filter_map, List.length_map,
      length_filterMap_isSome (fun m2 => (findMatchIntersection m m2).map fun pos =>
        (⟨0, c, SpecialType.wrapped, ObstacleType.none, pos, 0⟩ : Gem)) rest]
    refine congrArg List.length (List.filter_congr ?_)
    intro m2 _
    simp [Function.comp]

/-- The any-predicate of findMatchIntersection holds exactly on members of
the second match's position list. -/
theorem anyIntersect_iff (m2 : Match) (q : Position) :
    (m2.positions.any fun p2 => q.row = p2.row ∧ q.col = p2.col) = true ↔
      q ∈ m2.positions := by
  rw [List.any_eq_true]
  constructor
  · rintro ⟨p2, hmem, heq⟩
    have h1 : q.row = p2.row ∧ q.col = p2.col := by simpa using heq
    have : q = p2 := by
      obtain ⟨qr, qc⟩ := q
      obtain ⟨pr, pc⟩ := p2
      simp only at h1
      rw [h1.1, h1.2]
    rw [this]
    exact hmem
  · intro hmem
    exact ⟨q, hmem, by simp⟩

/-- find? returns the unique element satisfying its predicate. -/
theorem find?_eq_some_unique {α : Type} (pred : α → Bool) :
    ∀ (l : List α) (p : α), p ∈ l → pred p = true →
      (∀ q ∈ l, pred q = true → q = p) → l.find? pred = some p := by
  intro l
  induction l with
  | nil => intro p hp; cases hp
  | cons a t ih =>
    intro p hp hpp huniq
    by_cases ha : pred a = true
    · rw [List.find?_cons_of_pos t ha]
      rw [huniq a (by simp) ha]
    · rw [List.find?_cons_of_neg t ha]
      refine ih p ?_ hpp ?_
      · rcases List.mem_cons.mp hp with h | h
        · exact absurd (h ▸ hpp) ha
        · exact h
      · intro q hq hqp
        exact huniq q (List.mem_cons_of_mem _ hq) hqp

/-- A same-colored pair of matches with first intersection `p` yields, on its
own, exactly one wrapped gem of that color at `p`, and `p` lies in both
position sets. -/
theorem findWrappedPatterns_pair (m1 m2 : Match) (p : Position)
    (hc : m1.color = m2.color)
    (hi : findMatchIntersection m1 m2 = some p) :
    p ∈ m1.positions ∧ p ∈ m2.positions ∧
    findWrappedPatterns [m1, m2] =
      [⟨0, m1.color, SpecialType.wrapped, ObstacleType.none, p, 0⟩] := by
  have hi2 : m1.positions.find?
      (fun p1 => m2.positions.any fun p2 => p1.row = p2.row ∧ p1.col = p2.col) = some p := hi
  have hp1 : p ∈ m1.positions := List.mem_of_find?_eq_some hi2
  have hfs := @List.find?_some Position
    (fun p1 => m2.positions.any fun p2 => p1.row = p2.row ∧ p1.col = p2.col)
    p m1.positions hi2
  have hp2 : p ∈ m2.positions := (anyIntersect_iff m2 p).mp hfs
  refine ⟨hp1, hp2, ?_⟩
  have hcols : matchColors [m1, m2] = [m1.color] := by
    simp [matchColors, insertColor, ← hc]
  have hfilt : ([m1, m2].filter fun m => m.color = m1.color) = [m1, m2] := by
    simp [List.filter, ← hc]
  simp [findWrappedPatterns, hcols, hfilt, wrappedPairsFrom, hi]

/-- C5: wrapped-gem promotion from L/T intersections.  Within one color
group, the pair loop creates exactly one wrapped gem per ordered pair of
matches with a non-null intersection (counted over `allPairs`); a
same-colored pair with first intersection `p` yields exactly one wrapped gem
at `p`, which lies in both position sets; and two 3-length matches of one
color sharing exactly one position yield exactly one wrapped gem at that
shared position. -/
theorem wrapped_promotion :
    (∀ (c : GemColor) (l : List Match),
      (wrappedPairsFrom c l).length =
        ((allPairs l).filter fun pr => (findMatchIntersection pr.1 pr.2).isSome).length) ∧
    (∀ (m1 m2 : Match) (p : Position), m1.color = m2.color →
      findMatchIntersection m1 m2 = some p →
      p ∈ m1.positions ∧ p ∈ m2.positions ∧
      findWrappedPatterns [m1, m2] =
        [⟨0, m1.color, SpecialType.wrapped, ObstacleType.none, p, 0⟩]) ∧
    (∀ (m1 m2 : Match) (p : Position), m1.color = m2.color →
      m1.positions.length = 3 → m2.positions.length = 3 →
      (∀ q, (q ∈ m1.positions ∧ q ∈ m2.positions) ↔ q = p) →
      findWrappedPatterns [m1, m2] =
        [⟨0, m1.color, SpecialType.wrapped, ObstacleType.none, p, 0⟩]) := by
  refine ⟨wrappedPairsFrom_length, findWrappedPatterns_pair, ?_⟩
  intro m1 m2 p hc hl1 hl2 hshare
  have hpmem : p ∈ m1.positions ∧ p ∈ m2.positions := (hshare p).mpr rfl
  have hi : findMatchIntersection m1 m2 = some p := by
    show m1.positions.find?
      (fun p1 => m2.positions.any fun p2 => p1.row = p2.row ∧ p1.col = p2.col) = some p
    refine find?_eq_some_unique _ m1.positions p hpmem.1 ?_ ?_
    · exact (anyIntersect_iff m2 p).mpr hpmem.2
    · intro q hq hqp
      exact (hshare q).mp ⟨hq, (anyIntersect_iff m2 q).mp hqp⟩
  exact (findWrappedPatterns_pair m1 m2 p hc hi).2.2

/-- Witness for C5: the red L-shape made of `exMatchL1` and `exMatchL2`
produces exactly one wrapped red gem at the shared corner (2,2), through both
the intersection route and the unique-shared-position route, and the
per-pair count is 1. -/
theorem wrapped_promotion_witness :
    (wrappedPairsFrom GemColor.red [exMatchL1, exMatchL2]).length =
      ((allPairs [exMatchL1, exMatchL2]).filter fun pr =>
        (findMatchIntersection pr.1 pr.2).isSome).length ∧
    ((2 : Nat), (2 : Nat)) = (2, 2) ∧
    findWrappedPatterns [exMatchL1, exMatchL2] =
      [⟨0, GemColor.red, SpecialType.wrapped, ObstacleType.none, ⟨2, 2⟩, 0⟩] ∧
    findMatchIntersection exMatchL1 exMatchL2 = some ⟨2, 2⟩ := by
  refine ⟨wrapped_promotion.1 GemColor.red [exMatchL1, exMatchL2], rfl, ?_, by decide⟩
  refine wrapped_promotion.2.2 exMatchL1 exMatchL2 ⟨2, 2⟩ (by decide) (by decide) (by decide) ?_
  intro q
  obtain ⟨qr, qc⟩ := q
  simp [exMatchL1, exMatchL2, Position.mk.injEq]
  omega

/-- Clearing a cell leaves it empty whether or not it held a gem. -/
theorem removeGemAt_self (g : Grid) (q : Position) : removeGemAt g q q = none := by
  unfold removeGemAt
  cases hg : g q with
  | none => exact hg
  | some gem => simp [setCell]

/-- Clearing one cell leaves every other cell unchanged. -/
theorem removeGemAt_other (g : Grid) (q p : Position) (h : p ≠ q) :
    removeGemAt g q p = g p := by
  unfold removeGemAt
  cases hg : g q with
  | none => rfl
  | some gem => simp [setCell, h]

/-- A removal pass never touches cells outside its position list. -/
theorem removeList_not_mem :
    ∀ (ps : List Position) (g : Grid) (p : Position), p ∉ ps →
      removeGemsAtPositions g ps p = g p := by
  intro ps
  induction ps with
  | nil => intro g p _; rfl
  | cons q rest ih =>
    intro g p hp
    have h1 : p ≠ q := fun hEq => hp (hEq ▸ List.mem_cons_self q rest)
    have h2 : p ∉ rest := fun hmem => hp (List.mem_cons_of_mem _ hmem)
    calc removeGemsAtPositions (removeGemAt g q) rest p
        = removeGemAt g q p := ih _ p h2
      _ = g p := removeGemAt_other g q p h1

/-- A removal pass only ever empties cells, so an empty cell stays empty. -/
theorem removeList_none_stays :
    ∀ (ps : List Position) (g : Grid) (p : Position), g p = none →
      removeGemsAtPositions g ps p = none := by
  intro ps
  induction ps with
  | nil => intro g p h; exact h
  | cons q rest ih =>
    intro g p h
    refine ih _ p ?_
    by_cases hpq : p = q
    · exact hpq ▸ removeGemAt_self g q
    · rw [removeGemAt_other g q p hpq]
      exact h

/-- Every listed position is empty after the removal pass. -/
theorem removeList_mem_none :
    ∀ (ps : List Position) (g : Grid) (p : Position), p ∈ ps →
      removeGemsAtPositions g ps p = none := by
  intro ps
  induction ps with
  | nil => intro g p h; cases h
  | cons q rest ih =>
    intro g p hp
    rcases List.mem_cons.mp hp with h | h
    · refine removeList_none_stays rest _ p ?_
      exact h ▸ removeGemAt_self g q
    · exact ih _ p h

/-- allPositions enumerates exactly the in-bounds cells. -/
theorem mem_allPositions (p : Position) :
    p ∈ allPositions ↔ p.row < ROWS ∧ p.col < COLUMNS := by
  obtain ⟨pr, pc⟩ := p
  unfold allPositions
  suffices h : ∀ rs : List Nat,
      (⟨pr, pc⟩ : Position) ∈ rs.foldr
        (fun r acc => ((List.range COLUMNS).map fun c => Position.mk r c) ++ acc) [] ↔
      pr ∈ rs ∧ pc < COLUMNS by
    rw [h (List.range ROWS), List.mem_range]
  intro rs
  induction rs with
  | nil => simp
  | cons r rs ih =>
    simp only [List.foldr_cons, List.mem_append, ih, List.mem_map, List.mem_range,
      List.mem_cons, Position.mk.injEq]
    constructor
    · rintro (⟨c, hc, hr, hcEq⟩ | ⟨h1, h2⟩)
      · exact ⟨Or.inl hr.symm, hcEq ▸ hc⟩
      · exact ⟨Or.inr h1, h2⟩
    · rintro ⟨h1 | h1, h2⟩
      · exact Or.inl ⟨pc, h2, h1.symm, rfl⟩
      · exact Or.inr ⟨h1, h2⟩

/-- C6: detonation.  A striped-horizontal gem clears every cell of its row
and touches no other row; a striped-vertical gem clears every cell of its
column and touches no other column; a color bomb clears every in-bounds cell
holding a gem of its color and leaves every cell of a different color (or
empty cell) unchanged. -/
theorem detonation_effects :
    (∀ (g : Grid) (gem : Gem), gem.specialType = SpecialType.striped_h →
      (∀ c : Nat, c < COLUMNS → processStripedGem g gem ⟨gem.position.row, c⟩ = none) ∧
      (∀ p : Position, p.row ≠ gem.position.row → processStripedGem g gem p = g p)) ∧
    (∀ (g : Grid) (gem : Gem), gem.specialType = SpecialType.striped_v →
      (∀ r : Nat, r < ROWS → processStripedGem g gem ⟨r, gem.position.col⟩ = none) ∧
      (∀ p : Position, p.col ≠ gem.position.col → processStripedGem g gem p = g p)) ∧
    (∀ (g : Grid) (gem : Gem) (p : Position) (b : Gem),
      p.row < ROWS → p.col < COLUMNS → g p = some b → b.color = gem.color →
      processColorBomb g gem p = none) ∧
    (∀ (g : Grid) (gem : Gem) (p : Position),
      (∀ b : Gem, g p = some b → ¬ b.color = gem.color) →
      processColorBomb g gem p = g p) := by
  refine ⟨?_, ?_, ?_, ?_⟩
  · intro g gem hst
    unfold processStripedGem
    rw [if_pos hst]
    constructor
    · intro c hc
      refine removeList_mem_none _ g _ ?_
      exact List.mem_map.mpr ⟨c, List.mem_range.mpr hc, rfl⟩
    · intro p hp
      refine removeList_not_mem _ g p ?_
      intro hmem
      obtain ⟨c, _, hEq⟩ := List.mem_map.mp hmem
      exact hp (by rw [← hEq])
  · intro g gem hst
    unfold processStripedGem
    rw [if_neg (by simp [hst])]
    constructor
    · intro r hr
      refine removeList_mem_none _ g _ ?_
      exact List.mem_map.mpr ⟨r, List.mem_range.mpr hr, rfl⟩
    · intro p hp
      refine removeList_not_mem _ g p ?_
      intro hmem
      obtain ⟨r, _, hEq⟩ := List.mem_map.mp hmem
      exact hp (by rw [← hEq])
  · intro g gem p b hrow hcol hgp hbc
    unfold processColorBomb
    refine removeList_mem_none _ g p ?_
    refine List.mem_filter.mpr ⟨(mem_allPositions p).mpr ⟨hrow, hcol⟩, ?_⟩
    rw [hgp]
    simp [hbc]
  · intro g gem p hdiff
    unfold processColorBomb
    refine removeList_not_mem _ g p ?_
    intro hmem
    have hpred := (List.mem_filter.mp hmem).2
    cases hgp : g p with
    | none => rw [hgp] at hpred; simp at hpred
    | some b =>
      rw [hgp] at hpred
      simp only [decide_eq_true_eq] at hpred
      exact hdiff b hgp hpred

/-- Witness for C6: on the six-yellow board the yellow color bomb clears all
six yellow cells and leaves a green cell untouched; a striped-horizontal gem
clears a full row cell and leaves a cell of another row untouched; a
striped-vertical gem clears a full column cell. -/
theorem detonation_effects_witness :
    processColorBomb exGrid6 exBomb ⟨0, 0⟩ = none ∧
    processColorBomb exGrid6 exBomb ⟨1, 3⟩ = none ∧
    processColorBomb exGrid6 exBomb ⟨2, 6⟩ = none ∧
    processColorBomb exGrid6 exBomb ⟨4, 2⟩ = none ∧
    processColorBomb exGrid6 exBomb ⟨5, 5⟩ = none ∧
    processColorBomb exGrid6 exBomb ⟨7, 1⟩ = none ∧
    processColorBomb exGrid6 exBomb ⟨0, 1⟩ = exGrid6 ⟨0, 1⟩ ∧
    processStripedGem baseGrid exStripedRow ⟨3, 0⟩ = none ∧
    processStripedGem baseGrid exStripedRow ⟨2, 0⟩ = baseGrid ⟨2, 0⟩ ∧
    processStripedGem baseGrid exStripedCol ⟨0, 5⟩ = none := by
  refine ⟨?_, ?_, ?_, ?_, ?_, ?_, ?_, ?_, ?_, ?_⟩
  · exact detonation_effects.2.2.1 exGrid6 exBomb ⟨0, 0⟩
      ⟨300, GemColor.yellow, SpecialType.normal, ObstacleType.none, ⟨0, 0⟩, 0⟩
      (by decide) (by decide) (by decide) (by decide)
  · exact detonation_effects.2.2.1 exGrid6 exBomb ⟨1, 3⟩
      ⟨311, GemColor.yellow, SpecialType.normal, ObstacleType.none, ⟨1, 3⟩, 0⟩
      (by decide) (by decide) (by decide) (by decide)
  · exact detonation_effects.2.2.1 exGrid6 exBomb ⟨2, 6⟩
      ⟨322, GemColor.yellow, SpecialType.normal, ObstacleType.none, ⟨2, 6⟩, 0⟩
      (by decide) (by decide) (by decide) (by decide)
  · exact detonation_effects.2.2.1 exGrid6 exBomb ⟨4, 2⟩
      ⟨334, GemColor.yellow, SpecialType.normal, ObstacleType.none, ⟨4, 2⟩, 0⟩
      (by decide) (by decide) (by decide) (by decide)
  · exact detonation_effects.2.2.1 exGrid6 exBomb ⟨5, 5⟩
      ⟨345, GemColor.yellow, SpecialType.normal, ObstacleType.none, ⟨5, 5⟩, 0⟩
      (by decide) (by decide) (by decide) (by decide)
  · exact detonation_effects.2.2.1 exGrid6 exBomb ⟨7, 1⟩
      ⟨357, GemColor.yellow, SpecialType.normal, ObstacleType.none, ⟨7, 1⟩, 0⟩
      (by decide) (by decide) (by decide) (by decide)
  · exact detonation_effects.2.2.2 exGrid6 exBomb ⟨0, 1⟩ (by decide)
  · exact (detonation_effects.1 baseGrid exStripedRow (by decide)).1 0 (by decide)
  · exact (detonation_effects.1 baseGrid exStripedRow (by decide)).2 ⟨2, 0⟩ (by decide)
  · exact (detonation_effects.2.1 baseGrid exStripedCol (by decide)).1 0 (by decide)

/-- List.getD of an in-range index is a member. -/
theorem getD_mem {l : List Position} {n : Nat} (h : n < l.length) (d : Position) :
    l.getD n d ∈ l := by
  rw [List.getD_eq_getElem l d h]
  exact List.getElem_mem h

/-- A straight-run promoted gem records a position of its own match. -/
theorem promoteStraight_pos_mem (m : Match) (sg : Gem)
    (h : promoteStraight m = some sg) : sg.position ∈ m.positions := by
  unfold promoteStraight at h
  split at h
  · next h4 =>
    cases h
    exact getD_mem (by omega) _
  · split at h
    · next h5 =>
      cases h
      refine getD_mem ?_ _
      exact Nat.div_lt_self (by omega) (by omega)
    · cases h

/-- A wrapped gem from the pair loop records a position occurring in one of
the group's matches. -/
theorem wrappedPairsFrom_pos_mem (c : GemColor) :
    ∀ (l : List Match) (sg : Gem), sg ∈ wrappedPairsFrom c l →
      ∃ m ∈ l, sg.position ∈ m.positions := by
  intro l
  induction l with
  | nil => intro sg h; simp [wrappedPairsFrom] at h
  | cons m rest ih =>
    intro sg h
    simp only [wrappedPairsFrom, List.mem_append] at h
    rcases h with h | h
    · obtain ⟨m2, _, hg⟩ := List.mem_filterMap.mp h
      obtain ⟨p, hint, hp⟩ := Option.map_eq_some'.mp hg
      cases hp
      exact ⟨m, List.mem_cons_self m rest, List.mem_of_find?_eq_some hint⟩
    · obtain ⟨m', hm', hp⟩ := ih sg h
      exact ⟨m', List.mem_cons_of_mem _ hm', hp⟩

/-- Every wrapped gem produced by findWrappedPatterns records a position of
one of the scanned matches. -/
theorem findWrappedPatterns_pos_mem (ms : List Match) :
    ∀ sg ∈ findWrappedPatterns ms, ∃ m ∈ ms, sg.position ∈ m.positions := by
  unfold findWrappedPatterns
  suffices h : ∀ (colors : List GemColor) (acc : List Gem),
      (∀ sg ∈ acc, ∃ m ∈ ms, sg.position ∈ m.positions) →
      ∀ sg ∈ colors.foldl
        (fun acc color =>
          let colorMatches := ms.filter fun m => m.color = color
          if 2 ≤ colorMatches.length then acc ++ wrappedPairsFrom color colorMatches
          else acc) acc,
        ∃ m ∈ ms, sg.position ∈ m.positions by
    exact h (matchColors ms) [] (by simp)
  intro colors
  induction colors with
  | nil => intro acc hacc; simpa using hacc
  | cons c rest ih =>
    intro acc hacc sg hsg
    refine ih _ ?_ sg hsg
    intro sg' hsg'
    simp only at hsg'
    split at hsg'
    · rcases List.mem_append.mp hsg' with h | h
      · exact hacc sg' h
      · obtain ⟨m, hm, hp⟩ := wrappedPairsFrom_pos_mem c _ sg' h
        exact ⟨m, List.mem_of_mem_filter hm, hp⟩
    · exact hacc sg' hsg'

/-- Matched-cell clearing leaves an already empty cell empty. -/
theorem removeMatched_none_stays :
    ∀ (ms : List Match) (g : Grid) (p : Position), g p = none →
      removeMatchedGems g ms p = none := by
  intro ms
  induction ms with
  | nil => intro g p h; exact h
  | cons m rest ih =>
    intro g p h
    exact ih _ p (removeList_none_stays m.positions g p h)

/-- Every position of every match is empty after removeMatchedGems. -/
theorem removeMatched_mem_none :
    ∀ (ms : List Match) (g : Grid) (p : Position), (∃ m ∈ ms, p ∈ m.positions) →
      removeMatchedGems g ms p = none := by
  intro ms
  induction ms with
  | nil => rintro g p ⟨m, hm, _⟩; cases hm
  | cons m rest ih =>
    rintro g p ⟨m', hm', hp⟩
    rcases List.mem_cons.mp hm' with h | h
    · subst h
      exact removeMatched_none_stays rest _ p (removeList_mem_none m'.positions g p hp)
    · exact ih _ p ⟨m', h, hp⟩

/-- C8 counterexample: the promoter turns the yellow 4-run into a striped gem
recorded at (0,2), but after the removal step of the cycle the cell at that
recorded position is empty — the promoted gem is not on the grid there. -/
theorem promoted_gem_not_on_grid_after_removal :
    createSpecialGems [exMatch4] = [exStripedGem] ∧
    removeMatchedGems exGrid4 [exMatch4] exStripedGem.position = none ∧
    removeMatchedGems exGrid4 [exMatch4] exStripedGem.position ≠ some exStripedGem := by
  refine ⟨by decide, by decide, ?_⟩
  intro h
  have h2 : removeMatchedGems exGrid4 [exMatch4] exStripedGem.position = none := by decide
  rw [h2] at h
  cases h

/-- C8 amended: promoted special gems are never placed on the grid; every
promoted gem's recorded position is itself a matched position, so after the
removal step the cell at that position is empty.  (The promoted gems are only
used afterwards to drive the detonation pass.) -/
theorem promoted_positions_empty_after_removal (ms : List Match) (g : Grid) :
    ∀ sg ∈ createSpecialGems ms, removeMatchedGems g ms sg.position = none := by
  intro sg hsg
  unfold createSpecialGems at hsg
  rw [foldl_promote_eq_filterMap ms []] at hsg
  simp only [List.nil_append, List.mem_append] at hsg
  rcases hsg with h | h
  · obtain ⟨m, hm, hps⟩ := List.mem_filterMap.mp h
    exact removeMatched_mem_none ms g sg.position ⟨m, hm, promoteStraight_pos_mem m sg hps⟩
  · obtain ⟨m, hm, hp⟩ := findWrappedPatterns_pos_mem ms sg h
    exact removeMatched_mem_none ms g sg.position ⟨m, hm, hp⟩

/-- Witness for the amended C8: the striped gem promoted from the yellow
4-run sits on an emptied cell after removal. -/
theorem promoted_positions_empty_after_removal_witness :
    removeMatchedGems exGrid4 [exMatch4] exStripedGem.position = none :=
  promoted_positions_empty_after_removal [exMatch4] exGrid4 exStripedGem (by decide)

/-- C9 counterexample: the yellow cookie obstacle at (0,1) sits inside the
yellow run (0,0)–(0,2), and the scanner returns that run as a match whose
position set contains the obstacle's position. -/
theorem obstacle_position_in_match :
    exGrid9 ⟨0, 1⟩ = some exCookie ∧
    isObstacle exCookie = true ∧
    findMatchesInBoard exGrid9 = [⟨[⟨0, 0⟩, ⟨0, 1⟩, ⟨0, 2⟩], GemColor.yellow⟩] ∧
    (⟨0, 1⟩ : Position) ∈ ([⟨0, 0⟩, ⟨0, 1⟩, ⟨0, 2⟩] : List Position) := by
  refine ⟨by decide, by decide, by decide, by decide⟩

/-- C9 amended: matchability never inspects obstacleType — canMatchWith
depends only on color and the color-bomb special type — so a position holding
an obstacle gem appears in scan matches exactly as a normal gem of the same
color would. -/
theorem canMatchWith_ignores_obstacleType :
    ∀ (a b : Gem) (o o' : ObstacleType),
      canMatchWith { a with obstacleType := o } { b with obstacleType := o' } =
        canMatchWith a b := by
  intro a b o o'
  rfl

/-- C7 evidence: Board.onGemClicked never consults Gem.canMove, so a swap
whose selected gem is an immovable cookie obstacle is not rejected: the click
proceeds through attemptSwap, the match is processed, the score rises to 100
and the move counter drops to 29. -/
theorem obstacle_swap_not_rejected :
    isObstacle exGemO = true ∧
    canMove exGemO = false ∧
    exGridC7 ⟨0, 0⟩ = some exGemO ∧
    (onGemClicked exSupply 4 exUIC7 exGemB).map
      (fun u => (u.board.moves, u.board.score)) = some (29, 100) := by
  refine ⟨by decide, by decide, by decide, by decide⟩

/-- The claiming loop only ever grows the visited set. -/
theorem addFresh_sub :
    ∀ (ps mtch vis : List Position), vis ⊆ (addFresh ps mtch vis).2 := by
  intro ps
  induction ps with
  | nil => intro mtch vis x hx; exact hx
  | cons q rest ih =>
    intro mtch vis
    unfold addFresh
    split
    · exact ih mtch vis
    · intro x hx
      exact ih _ _ (List.mem_append.mpr (Or.inl hx))

/-- Unfolding addFresh over an already visited head cell. -/
theorem addFresh_cons_mem (q : Position) (rest mtch vis : List Position) (h : q ∈ vis) :
    addFresh (q :: rest) mtch vis = addFresh rest mtch vis := by
  simp only [addFresh]
  rw [if_pos h]

/-- Unfolding addFresh over a fresh head cell. -/
theorem addFresh_cons_not_mem (q : Position) (rest mtch vis : List Position) (h : q ∉ vis) :
    addFresh (q :: rest) mtch vis = addFresh rest (mtch ++ [q]) (vis ++ [q]) := by
  simp only [addFresh]
  rw [if_neg h]

/-- Every element of the claimed-match list was either there before or is a
newly claimed cell: not previously visited, and visited afterwards. -/
theorem addFresh_mem :
    ∀ (ps mtch vis : List Position) (p : Position), p ∈ (addFresh ps mtch vis).1 →
      p ∈ mtch ∨ (p ∉ vis ∧ p ∈ (addFresh ps mtch vis).2) := by
  intro ps
  induction ps with
  | nil => intro mtch vis p hp; exact Or.inl hp
  | cons q rest ih =>
    intro mtch vis p hp
    by_cases hq : q ∈ vis
    · rw [addFresh_cons_mem q rest mtch vis hq] at hp ⊢
      exact ih mtch vis p hp
    · rw [addFresh_cons_not_mem q rest mtch vis hq] at hp ⊢
      rcases ih _ _ p hp with h | ⟨h1, h2⟩
      · rcases List.mem_append.mp h with h | h
        · exact Or.inl h
        · have hpq : p = q := by simpa using h
          subst hpq
          refine Or.inr ⟨hq, ?_⟩
          exact addFresh_sub rest _ _ (List.mem_append.mpr (Or.inr (by simp)))
      · refine Or.inr ⟨fun hv => h1 (List.mem_append.mpr (Or.inl hv)), h2⟩

/-- Relativized claiming spec: claiming preserves any lower bound `vis0` of
the visited set, and everything in the claimed list avoids `vis0` while
landing in the final visited set. -/
theorem addFresh_spec (run mtch vis vis0 : List Position)
    (hsub : vis0 ⊆ vis) (hmem : ∀ p ∈ mtch, p ∉ vis0 ∧ p ∈ vis) :
    vis0 ⊆ (addFresh run mtch vis).2 ∧
    ∀ p ∈ (addFresh run mtch vis).1, p ∉ vis0 ∧ p ∈ (addFresh run mtch vis).2 := by
  constructor
  · exact fun x hx => addFresh_sub run mtch vis (hsub hx)
  · intro p hp
    rcases addFresh_mem run mtch vis p hp with h | ⟨h1, h2⟩
    · obtain ⟨ha, hb⟩ := hmem p h
      exact ⟨ha, addFresh_sub run mtch vis hb⟩
    · exact ⟨fun hv => h1 (hsub hv), h2⟩

/-- Spec of the final qualifying test of findMatchFromPosition, for an
abstract claimed state `s2`. -/
theorem final_if_spec (vis : List Position) (colorG : GemColor)
    (s2 : List Position × List Position)
    (hsub : vis ⊆ s2.2) (hmem : ∀ p ∈ s2.1, p ∉ vis ∧ p ∈ s2.2) :
    vis ⊆ (if MIN_MATCH_LENGTH ≤ s2.1.length then ((some ⟨s2.1, colorG⟩ : Option Match), s2.2)
      else (none, s2.2)).2 ∧
    ∀ m, (if MIN_MATCH_LENGTH ≤ s2.1.length then ((some ⟨s2.1, colorG⟩ : Option Match), s2.2)
      else (none, s2.2)).1 = some m →
      ∀ p ∈ m.positions, p ∉ vis ∧
        p ∈ (if MIN_MATCH_LENGTH ≤ s2.1.length then
          ((some ⟨s2.1, colorG⟩ : Option Match), s2.2) else (none, s2.2)).2 := by
  by_cases h3 : MIN_MATCH_LENGTH ≤ s2.1.length
  · rw [if_pos h3]
    refine ⟨hsub, ?_⟩
    intro m hm
    cases hm
    exact hmem
  · rw [if_neg h3]
    exact ⟨hsub, fun m hm => by cases hm⟩

/-- findMatchFromPosition spec: the visited set only grows, and every
position of a returned match is freshly claimed — absent from the incoming
visited set and present in the outgoing one. -/
theorem findMatchFromPosition_spec (g : Grid) (r c : Nat) (vis : List Position) :
    vis ⊆ (findMatchFromPosition g r c vis).2 ∧
    ∀ m, (findMatchFromPosition g r c vis).1 = some m →
      ∀ p ∈ m.positions, p ∉ vis ∧ p ∈ (findMatchFromPosition g r c vis).2 := by
  unfold findMatchFromPosition
  cases hg : g ⟨r, c⟩ with
  | none => exact ⟨fun x hx => hx, fun m hm => by cases hm⟩
  | some gem =>
    simp only
    by_cases hh : MIN_MATCH_LENGTH ≤ (findHorizontalMatch g r c gem.color).length <;>
      by_cases hv : MIN_MATCH_LENGTH ≤ (findVerticalMatch g r c gem.color).length <;>
      simp only [hh, hv, if_true, if_false, ite_true, ite_false]
    · have A1 := addFresh_spec (findHorizontalMatch g r c gem.color) [] vis vis
        (fun x hx => hx) (by simp)
      have A2 := addFresh_spec (findVerticalMatch g r c gem.color) _ _ vis A1.1 A1.2
      exact final_if_spec vis gem.color _ A2.1 A2.2
    · have A1 := addFresh_spec (findHorizontalMatch g r c gem.color) [] vis vis
        (fun x hx => hx) (by simp)
      exact final_if_spec vis gem.color _ A1.1 A1.2
    · have A1 : vis ⊆ (([], vis) : List Position × List Position).2 ∧
          ∀ p ∈ (([], vis) : List Position × List Position).1,
            p ∉ vis ∧ p ∈ (([], vis) : List Position × List Position).2 :=
        ⟨fun x hx => hx, by simp⟩
      have A2 := addFresh_spec (findVerticalMatch g r c gem.color) _ _ vis A1.1 A1.2
      exact final_if_spec vis gem.color _ A2.1 A2.2
    · exact final_if_spec vis gem.color ([], vis) (fun x hx => hx) (by simp)

/-- One scan step preserves the fold invariant: all collected match positions
are visited, and the collected matches are pairwise position-disjoint. -/
theorem scanStep_inv (g : Grid) (acc : List Match × List Position) (p : Position)
    (h1 : ∀ m ∈ acc.1, ∀ q ∈ m.positions, q ∈ acc.2)
    (h2 : List.Pairwise (fun m1 m2 => ∀ q ∈ m1.positions, q ∉ m2.positions) acc.1) :
    (∀ m ∈ (scanStep g acc p).1, ∀ q ∈ m.positions, q ∈ (scanStep g acc p).2) ∧
    List.Pairwise (fun m1 m2 => ∀ q ∈ m1.positions, q ∉ m2.positions)
      (scanStep g acc p).1 := by
  unfold scanStep
  cases hg : g p with
  | none => exact ⟨h1, h2⟩
  | some gem =>
    simp only
    by_cases hmem : p ∈ acc.2
    · rw [if_pos hmem]
      exact ⟨h1, h2⟩
    · rw [if_neg hmem]
      have hspec := findMatchFromPosition_spec g p.row p.col acc.2
      rcases hfm : findMatchFromPosition g p.row p.col acc.2 with ⟨om, v⟩
      rw [hfm] at hspec
      cases om with
      | none =>
        simp only
        exact ⟨fun m hm q hq => hspec.1 (h1 m hm q hq), h2⟩
      | some m =>
        simp only
        have hfresh := hspec.2 m rfl
        split
        · constructor
          · intro m' hm' q hq
            rcases List.mem_append.mp hm' with h | h
            · exact hspec.1 (h1 m' h q hq)
            · have hm'' : m' = m := by simpa using h
              subst hm''
              exact (hfresh q hq).2
          · rw [List.pairwise_append]
            refine ⟨h2, by simp, ?_⟩
            intro a ha b hb
            have hb' : b = m := by simpa using hb
            subst hb'
            intro q hq hqb
            exact (hfresh q hqb).1 (h1 a ha q hq)
        · exact ⟨fun m' hm' q hq => hspec.1 (h1 m' hm' q hq), h2⟩

/-- The scan fold preserves the invariant along any cell list. -/
theorem scan_fold_inv (g : Grid) :
    ∀ (ps : List Position) (acc : List Match × List Position),
      (∀ m ∈ acc.1, ∀ q ∈ m.positions, q ∈ acc.2) →
      List.Pairwise (fun m1 m2 => ∀ q ∈ m1.positions, q ∉ m2.positions) acc.1 →
      List.Pairwise (fun m1 m2 => ∀ q ∈ m1.positions, q ∉ m2.positions)
        (ps.foldl (scanStep g) acc).1 := by
  intro ps
  induction ps with
  | nil => intro acc h1 h2; exact h2
  | cons p rest ih =>
    intro acc h1 h2
    have hstep := scanStep_inv g acc p h1 h2
    exact ih (scanStep g acc p) hstep.1 hstep.2

/-- C10: the matches returned by one findMatchesInBoard scan have pairwise
disjoint position sets — the shared visited set claims each cell at most
once, so no grid position occurs in two different matches of the same scan. -/
theorem scan_matches_pairwise_disjoint (g : Grid) :
    List.Pairwise (fun m1 m2 => ∀ q ∈ m1.positions, q ∉ m2.positions)
      (findMatchesInBoard g) := by
  unfold findMatchesInBoard
  exact scan_fold_inv g allPositions ([], []) (by simp) (by simp)

/-- Witness for C3: on the obstacle-swap board the provisional swap yields a
match, the cascade terminates with fuel 4, and the move counter lands at
exactly 30 − 1 = 29; the reverted base-board swap leaves it at 30. -/
theorem moves_budget_witness :
    (attemptSwap exSupply 4 exUIC7.board exGemO exGemB).map BoardState.moves = some 29 ∧
    (attemptSwap exSupply 1 stBase exGemA exGemB).map BoardState.moves = some 30 := by
  constructor
  · have hs : (attemptSwap exSupply 4 exUIC7.board exGemO exGemB).isSome = true := by decide
    obtain ⟨st', h⟩ := Option.isSome_iff_exists.mp hs
    have hm := moves_budget.2.1 exSupply 4 exUIC7.board exGemO exGemB st' (by decide) h
    rw [h, Option.map_some', hm]
    rfl
  · have hs : (attemptSwap exSupply 1 stBase exGemA exGemB).isSome = true := by decide
    obtain ⟨st', h⟩ := Option.isSome_iff_exists.mp hs
    have hm := moves_budget.2.2 exSupply 1 stBase exGemA exGemB st' (by decide) h
    rw [h, Option.map_some', hm]
    rfl

end Match3
